import Mathlib

/-!
Verification development for the Telegram chat-analyzer userbot
(`src/main.py`, class `ChatAnalyzer`).

The Python source is shallowly embedded below:

* SQLite stores message timestamps as ISO-8601 strings produced by
  `message.date.astimezone(timezone.utc).isoformat()`; these strings are
  compared by the default BINARY collation, i.e. byte-wise lexicographic
  comparison.  We model instants by a `Timestamp` record of UTC calendar
  fields, the serialization by `isoChars`, and the SQL string comparison
  by `lexLt` (byte order; all characters involved are ASCII, so code-point
  order equals byte order).
* `Counter(xs).most_common(k)` is a stable descending sort by count of the
  counter's `(key, count)` items, the keys listed in first-encounter order
  (Python dicts preserve insertion order and `sorted`/`heapq.nlargest` are
  stable).  Stable sorts are extensionally unique, so we embed it as an
  insertion sort with the same placement rule (`cntGe`).
* SQL `WHERE` clauses follow three-valued logic: a row is returned only if
  the predicate evaluates to TRUE; any comparison or `NOT IN` applied to a
  NULL operand yields NULL, hence drops the row.  `Option` models NULL.
-/

namespace ChatAnalyzer

/-- Byte-wise strict lexicographic order on character lists, as used by
SQLite BINARY collation to compare the stored ISO date strings (all the
characters that occur in them are ASCII, so comparing code points equals
comparing UTF-8 bytes).  A strict prefix is smaller. -/
def lexLt : List Char → List Char → Bool
  | _, [] => false
  | [], _ :: _ => true
  | a :: as, b :: bs =>
    if a.toNat < b.toNat then true
    else if b.toNat < a.toNat then false
    else lexLt as bs

/-- Decimal digit characters used in the ISO serialization. -/
def decDigit : Nat → Char
  | 0 => '0'
  | 1 => '1'
  | 2 => '2'
  | 3 => '3'
  | 4 => '4'
  | 5 => '5'
  | 6 => '6'
  | 7 => '7'
  | 8 => '8'
  | 9 => '9'
  | _ => '*'

/-- Zero-padded fixed-width decimal rendering, most significant digit
first, as produced by `datetime.isoformat` for every numeric field. -/
def padDigits : Nat → Nat → List Char
  | 0, _ => []
  | w + 1, n => decDigit (n / 10 ^ w) :: padDigits w (n % 10 ^ w)

/-- An instant, already normalized to UTC: the calendar fields a Python
`datetime` carries after `.astimezone(timezone.utc)`. -/
structure Timestamp where
  year : Nat
  month : Nat
  day : Nat
  hour : Nat
  minute : Nat
  second : Nat
  usec : Nat
deriving DecidableEq

/-- Mixed-radix encoding of a timestamp.  For timestamps whose fields are
in their calendar ranges this is an order isomorphism onto `Nat`, so it
models Python `datetime` comparison (which compares the field tuples). -/
def tsCode (t : Timestamp) : Nat :=
  (((((t.year * 100 + t.month) * 100 + t.day) * 100 + t.hour) * 100 +
      t.minute) * 100 + t.second) * 1000000 + t.usec

/-- Chronological strict order on instants (`datetime <`). -/
def tsLt (a b : Timestamp) : Bool :=
  decide (tsCode a < tsCode b)

/-- Field bounds that make every field fit its serialized width. -/
def DigitOk (t : Timestamp) : Prop :=
  t.year ≤ 9999 ∧ t.month ≤ 99 ∧ t.day ≤ 99 ∧ t.hour ≤ 99 ∧
    t.minute ≤ 99 ∧ t.second ≤ 99 ∧ t.usec ≤ 999999

instance (t : Timestamp) : Decidable (DigitOk t) := by
  unfold DigitOk; infer_instance

/-- Gregorian leap-year rule, as in Python `calendar`/`datetime`. -/
def isLeap (y : Nat) : Bool :=
  (y % 4 = 0 && y % 100 ≠ 0) || y % 400 = 0

/-- Number of days of month `m` in year `y`. -/
def daysInMonth (y m : Nat) : Nat :=
  if m = 2 then (if isLeap y then 29 else 28)
  else if m = 4 || m = 6 || m = 9 || m = 11 then 30
  else 31

/-- Calendar validity of a UTC instant (what a real `datetime` satisfies;
`datetime.MAXYEAR = 9999`). -/
def ValidTs (t : Timestamp) : Prop :=
  1 ≤ t.year ∧ t.year ≤ 9999 ∧ 1 ≤ t.month ∧ t.month ≤ 12 ∧
    1 ≤ t.day ∧ t.day ≤ daysInMonth t.year t.month ∧
    t.hour ≤ 23 ∧ t.minute ≤ 59 ∧ t.second ≤ 59 ∧ t.usec ≤ 999999

instance (t : Timestamp) : Decidable (ValidTs t) := by
  unfold ValidTs; infer_instance

/-- Calendar successor day: `end_date + timedelta(days=1)` applied to a
midnight instant (the only shape `_get_date_filter_query` feeds it). -/
def addOneDay (t : Timestamp) : Timestamp :=
  if t.day < daysInMonth t.year t.month then
    ⟨t.year, t.month, t.day + 1, t.hour, t.minute, t.second, t.usec⟩
  else if t.month < 12 then
    ⟨t.year, t.month + 1, 1, t.hour, t.minute, t.second, t.usec⟩
  else
    ⟨t.year + 1, 1, 1, t.hour, t.minute, t.second, t.usec⟩

/-- Fractional-second part of `datetime.isoformat()`: omitted exactly when
the microsecond field is zero, else `.` plus six digits. -/
def usecChars (us : Nat) : List Char :=
  if us = 0 then [] else '.' :: padDigits 6 us

/-- The fixed `+00:00` UTC offset suffix `isoformat` appends to an aware
UTC datetime. -/
def offsetChars : List Char :=
  ['+', '0', '0', ':', '0', '0']

/-- Characters of `t.isoformat()` for an aware UTC `datetime`:
`YYYY-MM-DDTHH:MM:SS[.ffffff]+00:00`. -/
def isoChars (t : Timestamp) : List Char :=
  padDigits 4 t.year ++ '-' ::
    (padDigits 2 t.month ++ '-' ::
      (padDigits 2 t.day ++ 'T' ::
        (padDigits 2 t.hour ++ ':' ::
          (padDigits 2 t.minute ++ ':' ::
            (padDigits 2 t.second ++ (usecChars t.usec ++ offsetChars))))))

/-- The stored date string of an instant. -/
def isoStr (t : Timestamp) : String :=
  ⟨isoChars t⟩

/-- Keys not seen before, scanned left to right (helper of
`firstDedup`). -/
def firstDedupAux [DecidableEq α] (seen : List α) : List α → List α
  | [] => []
  | x :: xs =>
    if x ∈ seen then firstDedupAux seen xs
    else x :: firstDedupAux (x :: seen) xs

/-- First-encounter deduplication: the key sequence of a Python dict (or
`Counter`) built by scanning a list, in insertion order. -/
def firstDedup [DecidableEq α] (l : List α) : List α :=
  firstDedupAux [] l

/-- The `(key, count)` items of `Counter(l)`, keys in first-encounter
(scan) order with their total multiplicities. -/
def counterList [DecidableEq α] (l : List α) : List (α × Nat) :=
  (firstDedup l).map (fun x => (x, l.count x))

/-- Placement rule of a stable descending sort by count: an element may
come before another exactly when its count is at least as large. -/
def cntGe (a b : α × Nat) : Prop :=
  b.2 ≤ a.2

instance : DecidableRel (@cntGe α) :=
  fun a b => inferInstanceAs (Decidable (b.2 ≤ a.2))

instance : IsTotal (α × Nat) cntGe :=
  ⟨fun a b => Nat.le_total b.2 a.2⟩

instance : IsTrans (α × Nat) cntGe :=
  ⟨fun _ _ _ hab hbc => Nat.le_trans hbc hab⟩

/-- Stable descending sort of counter items by count.  Insertion sort with
the `cntGe` placement rule produces the same list as any stable sort, in
particular as CPython `sorted(..., key=count, reverse=True)` and
`heapq.nlargest`, both of which back `Counter.most_common`. -/
def sortByCountDesc (l : List (α × Nat)) : List (α × Nat) :=
  List.insertionSort cntGe l

/-- Embedding of `Counter(l).most_common(k)`. -/
def pyMostCommon [DecidableEq α] (l : List α) (k : Nat) : List (α × Nat) :=
  (sortByCountDesc (counterList l)).take k

/-- Python `str.lower`, restricted to the character repertoire this
program manipulates (ASCII plus the Cyrillic letters of the stop-word
set): `A`–`Z`, `А`–`Я` (U+0410–U+042F) and `Ё` (U+0401) are lowered,
everything else is fixed. -/
def pyLower (c : Char) : Char :=
  if 65 ≤ c.toNat ∧ c.toNat ≤ 90 then Char.ofNat (c.toNat + 32)
  else if 1040 ≤ c.toNat ∧ c.toNat ≤ 1071 then Char.ofNat (c.toNat + 32)
  else if c.toNat = 1025 then Char.ofNat 1105
  else c

/-- Python `re` word character `\w`, restricted likewise: ASCII digits,
ASCII letters, underscore, and the Cyrillic letters `А`–`я`, `Ё`, `ё`. -/
def isWordChar (c : Char) : Bool :=
  decide ((48 ≤ c.toNat ∧ c.toNat ≤ 57) ∨ (65 ≤ c.toNat ∧ c.toNat ≤ 90) ∨
    (97 ≤ c.toNat ∧ c.toNat ≤ 122) ∨ c.toNat = 95 ∨
    (1040 ≤ c.toNat ∧ c.toNat ≤ 1103) ∨ c.toNat = 1025 ∨ c.toNat = 1105)

/-- Helper of `wordRuns`: `cur` holds the word characters of the run in
progress, most recent first. -/
def wordRunsAux (cur : List Char) : List Char → List (List Char)
  | [] => if cur = [] then [] else [cur.reverse]
  | c :: cs =>
    if isWordChar c then wordRunsAux (c :: cur) cs
    else if cur = [] then wordRunsAux [] cs
    else cur.reverse :: wordRunsAux [] cs

/-- Maximal runs of word characters of a character list, left to right:
what `re.findall` with a `\b...\b`-delimited `\w` pattern scans over. -/
def wordRuns (l : List Char) : List (List Char) :=
  wordRunsAux [] l

/-- The stop-word set literal of `analyze_global_stats` and
`analyze_user_stats` (duplicate entries collapse in the Python set; only
membership matters). -/
def stopWords : List String :=
  ["и", "в", "на", "с", "по", "за", "до", "о", "у", "а", "но", "или", "же",
   "то", "не", "что", "как", "это", "бы", "был", "была", "было", "так", "вот",
   "ли",
   "the", "a", "an", "and", "or", "but", "in", "on", "at", "to", "for", "of",
   "with", "by", "is", "are", "was", "were", "be", "been", "have", "has", "had",
   "will", "would", "could", "should", "may", "might", "can", "this", "that",
   "these", "those"]

/-- The tokenizer applied to one text:
`re.findall(r'\b\w{2,}\b', text.lower())` followed by the stop-word
filter.  `\b\w{2,}\b` matches exactly the maximal word-character runs of
length at least 2. -/
def tokenize (s : String) : List String :=
  (((wordRuns (s.data.map pyLower)).filter (fun r => 2 ≤ r.length)).map
      (fun r => String.mk r)).filter (fun w => w ∉ stopWords)

/-- One row of the `messages` table (`init_db`).  `Option` models SQL
NULL; the `date` column holds `isoStr` of the instant kept here. -/
structure Row where
  id : Int
  date : Option Timestamp
  sender_id : Option Int
  sender_username : Option String
  sender_first_name : Option String
  sender_last_name : Option String
  text : Option String
  media_type : Option String
  sticker_emoji : Option String
  sticker_file_id : Option String
  sticker_set_name : Option String
deriving DecidableEq

/-- Whether some stored row already uses this primary key. -/
def idPresent (db : List Row) (i : Int) : Bool :=
  db.any (fun r => r.id == i)

/-- `INSERT OR IGNORE` on the `id INTEGER PRIMARY KEY` column: a row whose
id is already present is silently dropped, the table is unchanged. -/
def insertOrIgnore (db : List Row) (r : Row) : List Row :=
  if idPresent db r.id then db else db ++ [r]

/-- Sender of an incoming message (`message.from_user`). -/
structure Sender where
  id : Int
  username : Option String
  first_name : Option String
  last_name : Option String
deriving DecidableEq

/-- Media variant of an incoming message, mirroring the
`sticker`/`photo`/`video`/`voice`/`video_note` attribute cascade of
`_save_message`. -/
inductive Media where
  | noMedia
  | sticker (emoji : Option String) (file_id : String) (set_name : Option String)
  | photo (file_id : String)
  | video (file_id : String)
  | voice (file_id : String)
  | videoNote (file_id : String)
deriving DecidableEq

/-- An incoming message as yielded by the Adapter stream, its date already
normalized to UTC (as `fetch_messages` does before filtering). -/
structure InMsg where
  id : Int
  date : Timestamp
  from_user : Option Sender
  text : Option String
  caption : Option String
  media : Media
deriving DecidableEq

/-- Python `message.text or message.caption`: an absent or empty (falsy)
text falls through to the caption. -/
def pyTextOr (t c : Option String) : Option String :=
  match t with
  | some s => if s = "" then c else some s
  | none => c

/-- The `(media_type, sticker_emoji, sticker_file_id, sticker_set_name)`
columns `_save_message` derives from the media variant. -/
def mediaFields (m : Media) :
    Option String × Option String × Option String × Option String :=
  match m with
  | .noMedia => (none, none, none, none)
  | .sticker e f s => (some "sticker", e, some f, s)
  | .photo f => (some "photo", none, some f, none)
  | .video f => (some "video", none, some f, none)
  | .voice f => (some "voice", none, some f, none)
  | .videoNote f => (some "video_note", none, some f, none)

/-- The row `_save_message` builds from an incoming message. -/
def saveRowOf (m : InMsg) : Row :=
  { id := m.id
    date := some m.date
    sender_id := m.from_user.map (fun u => u.id)
    sender_username := m.from_user.bind (fun u => u.username)
    sender_first_name := m.from_user.bind (fun u => u.first_name)
    sender_last_name := m.from_user.bind (fun u => u.last_name)
    text := pyTextOr m.text m.caption
    media_type := (mediaFields m.media).1
    sticker_emoji := (mediaFields m.media).2.1
    sticker_file_id := (mediaFields m.media).2.2.1
    sticker_set_name := (mediaFields m.media).2.2.2 }

/-- `_save_message`: build the row and `INSERT OR IGNORE` it. -/
def saveMessage (db : List Row) (m : InMsg) : List Row :=
  insertOrIgnore db (saveRowOf m)

/-- Saving a whole source history, message by message. -/
def ingest (db : List Row) (h : List InMsg) : List Row :=
  h.foldl saveMessage db

/-- SQL `date >= ?` against a string bound: NULL never satisfies a
comparison (three-valued logic), a stored string is compared by BINARY
collation. -/
def sqlGeBound (d : Option Timestamp) (bound : String) : Bool :=
  match d with
  | none => false
  | some t => !(lexLt (isoChars t) bound.data)

/-- SQL `date < ?` against a string bound. -/
def sqlLtBound (d : Option Timestamp) (bound : String) : Bool :=
  match d with
  | none => false
  | some t => lexLt (isoChars t) bound.data

/-- The two conditions `_get_date_filter_query` appends: for a start date
`date >= start.isoformat()`, and for an end date
`date < (end + timedelta(days=1)).isoformat()`. -/
def dateFilter (s e : Option Timestamp) (r : Row) : Bool :=
  (match s with
   | none => true
   | some sd => sqlGeBound r.date (isoStr sd)) &&
  (match e with
   | none => true
   | some ed => sqlLtBound r.date (isoStr (addOneDay ed)))

/-- The per-message date test of `fetch_messages`: skip when
`message_date < self.start_date`, skip when
`message_date > self.end_date` (both instant comparisons against the
parsed midnights). -/
def scanAccept (s e : Option Timestamp) (t : Timestamp) : Bool :=
  (match s with
   | none => true
   | some sd => !(tsLt t sd)) &&
  (match e with
   | none => true
   | some ed => !(tsLt ed t))

/-- One element of the Adapter history stream: a yielded message, a
`FloodWait` raised out of the generator, or any other transport error. -/
inductive StreamItem where
  | msg (m : InMsg)
  | floodWait (seconds : Nat)
  | transportError
deriving DecidableEq

/-- How a `fetch_messages` run ends. -/
inductive FetchOutcome where
  | completed
  | floodWaited (seconds : Nat)
  | failed
deriving DecidableEq

/-- The fetch loop of `fetch_messages`: scan every yielded message, save
the in-range ones.  An exception raised out of the stream terminates the
`async for` iteration; the `except FloodWait` handler sleeps `e.x`
seconds and then the function returns (it is outside the loop, so the
remaining stream items are never consumed), and the generic handler
prints and returns likewise. -/
def fetchLoop (db : List Row) (s e : Option Timestamp) :
    List StreamItem → List Row × FetchOutcome
  | [] => (db, .completed)
  | .msg m :: rest =>
    if scanAccept s e m.date then fetchLoop (saveMessage db m) s e rest
    else fetchLoop db s e rest
  | .floodWait _n :: _ => (db, .floodWaited _n)
  | .transportError :: _ => (db, .failed)

/-- SQL `media_type NOT IN ('photo', 'video')` under three-valued logic:
a NULL `media_type` makes the predicate NULL, so the row is dropped. -/
def mediaNotPhotoVideo (mt : Option String) : Bool :=
  match mt with
  | none => false
  | some m => !(m == "photo" || m == "video")

/-- Rows of the metric-4 query
`SELECT date FROM messages WHERE date IS NOT NULL AND media_type NOT IN
('photo', 'video')` plus the period filter. -/
def metric4Rows (db : List Row) (s e : Option Timestamp) : List Row :=
  db.filter (fun r =>
    r.date.isSome && mediaNotPhotoVideo r.media_type && dateFilter s e r)

/-- The `.date()` of a parsed stored instant. -/
def dayOf (t : Timestamp) : Nat × Nat × Nat :=
  (t.year, t.month, t.day)

/-- The `dates` list metric 4 builds: calendar days of the rows the query
returned (parsing `isoStr` back always succeeds, so the `except
ValueError` skip never fires). -/
def metric4Dates (db : List Row) (s e : Option Timestamp) :
    List (Nat × Nat × Nat) :=
  (metric4Rows db s e).filterMap (fun r => r.date.map dayOf)

/-- Metric 4: `Counter(dates).most_common(1)[0] if dates else (None, 0)`. -/
def activeDay (db : List Row) (s e : Option Timestamp) :
    Option (Nat × Nat × Nat) × Nat :=
  match pyMostCommon (metric4Dates db s e) 1 with
  | (d, c) :: _ => (some d, c)
  | [] => (none, 0)

/-- Metric 5 on the metric-4 `dates` list.  A `datetime.date` is modelled
by its proleptic-Gregorian ordinal (`date.toordinal()`), an order
isomorphism under which date subtraction `.days` is ordinal subtraction
and date equality is ordinal equality; `min`/`max` are Python `min(dates)`
and `max(dates)`, `len(set(dates))` is `dedup.length`. -/
def inactiveDays : List Nat → Int
  | [] => 0
  | d :: ds =>
    (((ds.foldl Nat.max d : Nat) : Int) - ((ds.foldl Nat.min d : Nat) : Int) + 1) -
      ((d :: ds).dedup.length : Int)

/-- The `YYYY-MM` bucket of an instant, kept as the (year, month) pair the
string determines (both renderings are zero-padded, so the pair and the
`strftime('%Y-%m')` key are in bijection). -/
def monthOf (t : Timestamp) : Nat × Nat :=
  (t.year, t.month)

/-- Rows of the metric-12 query
`SELECT date FROM messages WHERE date IS NOT NULL` plus the period
filter. -/
def metric12Rows (db : List Row) (s e : Option Timestamp) : List Row :=
  db.filter (fun r => r.date.isSome && dateFilter s e r)

/-- Keys of the `month_activity` dict, in first-encounter order: the
months of the in-range dated rows. -/
def monthKeys (db : List Row) (s e : Option Timestamp) : List (Nat × Nat) :=
  firstDedup ((metric12Rows db s e).filterMap (fun r => r.date.map monthOf))

/-- `datetime(year, mon, 1, tzinfo=timezone.utc)` of metric 13/14. -/
def monthStartTs (ym : Nat × Nat) : Timestamp :=
  ⟨ym.1, ym.2, 1, 0, 0, 0, 0⟩

/-- The first instant of the following month (metric 13/14). -/
def nextMonthStartTs (ym : Nat × Nat) : Timestamp :=
  if ym.2 = 12 then ⟨ym.1 + 1, 1, 1, 0, 0, 0, 0⟩
  else ⟨ym.1, ym.2 + 1, 1, 0, 0, 0, 0⟩

/-- The token list metric 13 accumulates for one month: texts of the rows
matching `date >= month_start AND date < next_month_start` plus the
period filter, the falsy (NULL or empty) texts dropped, each tokenized. -/
def monthWords (db : List Row) (s e : Option Timestamp) (ym : Nat × Nat) :
    List String :=
  ((((db.filter (fun r =>
        sqlGeBound r.date (isoStr (monthStartTs ym)) &&
        sqlLtBound r.date (isoStr (nextMonthStartTs ym)) &&
        dateFilter s e r)).filterMap (fun r => r.text)).filter
      (fun t => t ≠ "")).map tokenize).flatten

/-- The `monthly_top_words` dict built over a key list: a month receives
an entry exactly when its token list is non-empty, and the entry is the
first item of `Counter(all_month_words).most_common(1)`. -/
def monthlyTopWordsAux (db : List Row) (s e : Option Timestamp) :
    List (Nat × Nat) → List ((Nat × Nat) × String)
  | [] => []
  | ym :: rest =>
    (match pyMostCommon (monthWords db s e ym) 1 with
     | (w, _) :: _ => [(ym, w)]
     | [] => []) ++ monthlyTopWordsAux db s e rest

/-- Metric 13: `monthly_top_words` over the `month_activity` keys. -/
def monthlyTopWords (db : List Row) (s e : Option Timestamp) :
    List ((Nat × Nat) × String) :=
  monthlyTopWordsAux db s e (monthKeys db s e)

/-- Externally visible steps of `run_with_args` / `run_interactive`, in
program order.  Store writes happen only inside `fetchHistory`. -/
inductive Effect where
  | clientStart
  | listChats
  | promptInput
  | adapterGetChat
  | storeOpen
  | fetchHistory
  | analyze
  | exportResults
deriving DecidableEq

/-- The steps both run modes perform after date validation succeeds. -/
def mainPhaseTrace : List Effect :=
  [Effect.adapterGetChat, Effect.storeOpen, Effect.fetchHistory,
   Effect.analyze, Effect.exportResults]

/-- The range validation of both run modes:
`if self.start_date and self.end_date < self.start_date: return`. -/
def rangeRejected (s e : Option Timestamp) : Bool :=
  match s, e with
  | some sd, some ed => tsLt ed sd
  | _, _ => false

/-- Effect trace of `run_with_args` from the point its dates are parsed:
client start, then either the early return of the range check or the main
phase. -/
def runWithArgsTrace (s e : Option Timestamp) : List Effect :=
  Effect.clientStart :: (if rangeRejected s e then [] else mainPhaseTrace)

/-- Effect trace of `run_interactive` from the point its dates are
parsed: it lists chats and prompts before validating the range. -/
def runInteractiveTrace (s e : Option Timestamp) : List Effect :=
  Effect.clientStart :: Effect.listChats :: Effect.promptInput ::
    (if rangeRejected s e then [] else mainPhaseTrace)

/-- Example input: a plain text message (no media) on 2023-01-01. -/
def exTextRow : Row :=
  { id := 1
    date := some ⟨2023, 1, 1, 10, 0, 0, 0⟩
    sender_id := some 7
    sender_username := none
    sender_first_name := some "A"
    sender_last_name := none
    text := some "hi"
    media_type := none
    sticker_emoji := none
    sticker_file_id := none
    sticker_set_name := none }

/-- Example input: first message of the rate-limit scenario stream. -/
def exMsg1 : InMsg :=
  ⟨1, ⟨2023, 1, 1, 10, 0, 0, 0⟩, none, some "one", none, .noMedia⟩

/-- Example input: message yielded after the rate-limit signal. -/
def exMsg2 : InMsg :=
  ⟨2, ⟨2023, 1, 2, 10, 0, 0, 0⟩, none, some "two", none, .noMedia⟩

/-- Example input: a history stream interrupted by a 5-second
`FloodWait`. -/
def exStream : List StreamItem :=
  [.msg exMsg1, .floodWait 5, .msg exMsg2]

/-- Example input: a dated January-2023 message carrying no text. -/
def exNoTextRow : Row :=
  { id := 1
    date := some ⟨2023, 1, 5, 10, 0, 0, 0⟩
    sender_id := some 7
    sender_username := none
    sender_first_name := none
    sender_last_name := none
    text := none
    media_type := none
    sticker_emoji := none
    sticker_file_id := none
    sticker_set_name := none }

/-- Example input: a dated January-2023 message with tokenizable text. -/
def exWordyRow : Row :=
  { exNoTextRow with id := 2, text := some "hello world hello" }

/-!  Theorems. -/

/-- Lexicographic byte order is irreflexive. -/
theorem lexLt_irrefl (l : List Char) : lexLt l l = false := by
  induction l with
  | nil => rfl
  | cons a as ih => simp [lexLt, ih]

/-- Equal heads reduce a lexicographic comparison to the tails. -/
theorem lexLt_cons_same (c : Char) (r1 r2 : List Char) :
    lexLt (c :: r1) (c :: r2) = lexLt r1 r2 := by
  simp [lexLt]

/-- Equal prefixes reduce a lexicographic comparison to the suffixes. -/
theorem lexLt_append_same (p r1 r2 : List Char) :
    lexLt (p ++ r1) (p ++ r2) = lexLt r1 r2 := by
  induction p with
  | nil => rfl
  | cons c cs ih => simpa [lexLt_cons_same] using ih

/-- Re-inserting a primary key already present leaves the table as it
was. -/
theorem insertOrIgnore_of_present {db : List Row} {r : Row}
    (h : idPresent db r.id = true) : insertOrIgnore db r = db := by
  simp [insertOrIgnore, h]

/-- Key presence spelt as an existential. -/
theorem idPresent_exists {db : List Row} {i : Int} :
    idPresent db i = true ↔ ∃ r ∈ db, r.id = i := by
  simp [idPresent, List.any_eq_true]

/-- How an insert changes key presence. -/
theorem idPresent_insertOrIgnore (db : List Row) (r : Row) (i : Int) :
    idPresent (insertOrIgnore db r) i = (idPresent db i || (r.id == i)) := by
  by_cases h : idPresent db r.id = true
  · rw [insertOrIgnore_of_present h]
    by_cases hri : r.id = i
    · subst hri
      simp [h]
    · simp [hri]
  · simp only [insertOrIgnore, h, if_false, Bool.false_eq_true]
    simp [idPresent, List.any_append]

/-- Ingesting more messages never removes a present key. -/
theorem idPresent_ingest_mono :
    ∀ (msgs : List InMsg) (db : List Row) (i : Int),
      idPresent db i = true → idPresent (ingest db msgs) i = true
  | [], _, _, h => h
  | m :: rest, db, i, h => by
    show idPresent (ingest (saveMessage db m) rest) i = true
    refine idPresent_ingest_mono rest _ i ?_
    rw [saveMessage, idPresent_insertOrIgnore, h]
    simp

/-- After ingesting a history, every message id of the history is
present. -/
theorem idPresent_ingest_of_mem :
    ∀ (msgs : List InMsg) (db : List Row) (m : InMsg), m ∈ msgs →
      idPresent (ingest db msgs) m.id = true
  | m' :: rest, db, m, hmem => by
    rcases List.mem_cons.mp hmem with rfl | hrest
    · show idPresent (ingest (saveMessage db m) rest) m.id = true
      refine idPresent_ingest_mono rest _ m.id ?_
      rw [saveMessage, idPresent_insertOrIgnore,
        show (saveRowOf m).id = m.id from rfl]
      simp
    · exact idPresent_ingest_of_mem rest (saveMessage db m') m hrest

/-- Ingesting messages whose ids are all present is a no-op. -/
theorem ingest_noop :
    ∀ (msgs : List InMsg) (db : List Row),
      (∀ m ∈ msgs, idPresent db m.id = true) → ingest db msgs = db
  | [], _, _ => rfl
  | m :: rest, db, h => by
    have h1 : idPresent db m.id = true := h m (List.mem_cons_self m rest)
    have h2 : saveMessage db m = db := by
      rw [saveMessage]
      exact insertOrIgnore_of_present
        (by rw [show (saveRowOf m).id = m.id from rfl]; exact h1)
    show ingest (saveMessage db m) rest = db
    rw [h2]
    exact ingest_noop rest db (fun m' hm' => h m' (List.mem_cons_of_mem _ hm'))

/-- Claim C4: ingestion is idempotent — ingesting the same source history
twice yields the same total stored count as ingesting it once, and
inserting a row whose id already exists is a silent no-op that leaves the
stored table (hence every previously stored field) unchanged; both
operations are total, so no error is ever raised. -/
theorem ingest_idempotent_and_dedup :
    (∀ (db : List Row) (h : List InMsg),
       (ingest (ingest db h) h).length = (ingest db h).length)
    ∧ (∀ (db : List Row) (r : Row), (∃ r' ∈ db, r'.id = r.id) →
       insertOrIgnore db r = db) := by
  constructor
  · intro db h
    rw [ingest_noop h (ingest db h)
      (fun m hm => idPresent_ingest_of_mem h db m hm)]
  · intro db r hex
    exact insertOrIgnore_of_present (idPresent_exists.mpr hex)

/-- Witness for C4 at a concrete store and row. -/
theorem ingest_idempotent_and_dedup_witness :
    (∃ r' ∈ [exTextRow], r'.id = exTextRow.id) ∧
      insertOrIgnore [exTextRow] exTextRow = [exTextRow] :=
  ⟨⟨exTextRow, by simp, rfl⟩,
    ingest_idempotent_and_dedup.2 [exTextRow] exTextRow
      ⟨exTextRow, by simp, rfl⟩⟩

/-- Claim C8: when the end date precedes the start date, both run modes
return right after the range check — the remaining trace is empty, so no
Adapter chat access, no Store open, no fetch and no write happens. -/
theorem inverted_range_rejected_before_fetch (s e : Timestamp)
    (h : tsLt e s = true) :
    runWithArgsTrace (some s) (some e) = [Effect.clientStart] ∧
    runInteractiveTrace (some s) (some e) =
      [Effect.clientStart, Effect.listChats, Effect.promptInput] ∧
    Effect.adapterGetChat ∉ runWithArgsTrace (some s) (some e) ∧
    Effect.storeOpen ∉ runWithArgsTrace (some s) (some e) ∧
    Effect.fetchHistory ∉ runWithArgsTrace (some s) (some e) ∧
    Effect.adapterGetChat ∉ runInteractiveTrace (some s) (some e) ∧
    Effect.storeOpen ∉ runInteractiveTrace (some s) (some e) ∧
    Effect.fetchHistory ∉ runInteractiveTrace (some s) (some e) := by
  have hr : rangeRejected (some s) (some e) = true := h
  refine ⟨by simp [runWithArgsTrace, hr], by simp [runInteractiveTrace, hr],
    ?_, ?_, ?_, ?_, ?_, ?_⟩ <;>
    simp [runWithArgsTrace, runInteractiveTrace, hr]

/-- Witness for C8: the range 15.06.2023 .. 01.01.2023 is rejected. -/
theorem inverted_range_rejected_before_fetch_witness :
    tsLt ⟨2023, 1, 1, 0, 0, 0, 0⟩ ⟨2023, 6, 15, 0, 0, 0, 0⟩ = true ∧
      runWithArgsTrace (some ⟨2023, 6, 15, 0, 0, 0, 0⟩)
        (some ⟨2023, 1, 1, 0, 0, 0, 0⟩) = [Effect.clientStart] :=
  ⟨by decide,
    (inverted_range_rejected_before_fetch ⟨2023, 6, 15, 0, 0, 0, 0⟩
      ⟨2023, 1, 1, 0, 0, 0, 0⟩ (by decide)).1⟩

/-- The running minimum of Python `min(dates)` bounds every element. -/
theorem foldl_min_le :
    ∀ (ds : List Nat) (d x : Nat), x ∈ d :: ds → ds.foldl Nat.min d ≤ x
  | [], _, x, hx => by
    rcases List.mem_cons.mp hx with rfl | hx'
    · exact Nat.le_refl x
    · cases hx'
  | e :: ds, d, x, hx => by
    rcases List.mem_cons.mp hx with rfl | hx'
    · exact Nat.le_trans
        (foldl_min_le ds (Nat.min x e) (Nat.min x e) (List.mem_cons_self _ _))
        (Nat.min_le_left x e)
    · rcases List.mem_cons.mp hx' with rfl | hx''
      · exact Nat.le_trans
          (foldl_min_le ds (Nat.min d x) (Nat.min d x) (List.mem_cons_self _ _))
          (Nat.min_le_right d x)
      · exact foldl_min_le ds (Nat.min d e) x (List.mem_cons_of_mem _ hx'')

/-- The running maximum of Python `max(dates)` bounds every element. -/
theorem le_foldl_max :
    ∀ (ds : List Nat) (d x : Nat), x ∈ d :: ds → x ≤ ds.foldl Nat.max d
  | [], _, x, hx => by
    rcases List.mem_cons.mp hx with rfl | hx'
    · exact Nat.le_refl x
    · cases hx'
  | e :: ds, d, x, hx => by
    rcases List.mem_cons.mp hx with rfl | hx'
    · exact Nat.le_trans (Nat.le_max_left x e)
        (le_foldl_max ds (Nat.max x e) (Nat.max x e) (List.mem_cons_self _ _))
    · rcases List.mem_cons.mp hx' with rfl | hx''
      · exact Nat.le_trans (Nat.le_max_right d x)
          (le_foldl_max ds (Nat.max d x) (Nat.max d x) (List.mem_cons_self _ _))
      · exact le_foldl_max ds (Nat.max d e) x (List.mem_cons_of_mem _ hx'')

/-- Claim C6: on a non-empty metric-4 date list the inactive-day count is
`(max - min) + 1` minus the number of distinct dates and is never
negative; on the empty list it is `0`.  (Dates are modelled by their
proleptic-Gregorian ordinals, under which `(max_date - min_date).days`
is ordinal subtraction.) -/
theorem inactive_days_formula :
    (∀ (d : Nat) (ds : List Nat),
       inactiveDays (d :: ds) =
         (((ds.foldl Nat.max d : Nat) : Int) -
             ((ds.foldl Nat.min d : Nat) : Int) + 1) -
           ((d :: ds).dedup.length : Int)
       ∧ 0 ≤ inactiveDays (d :: ds))
    ∧ inactiveDays [] = 0 := by
  refine ⟨fun d ds => ⟨rfl, ?_⟩, rfl⟩
  have hsub : (d :: ds).toFinset ⊆
      Finset.Icc (ds.foldl Nat.min d) (ds.foldl Nat.max d) := by
    intro x hx
    rw [List.mem_toFinset] at hx
    rw [Finset.mem_Icc]
    exact ⟨foldl_min_le ds d x hx, le_foldl_max ds d x hx⟩
  have hcard := Finset.card_le_card hsub
  rw [Nat.card_Icc] at hcard
  have hlen : (d :: ds).dedup.length = (d :: ds).toFinset.card :=
    (List.card_toFinset _).symm
  have hmn : ds.foldl Nat.min d ≤ d :=
    foldl_min_le ds d d (List.mem_cons_self d ds)
  have hmx : d ≤ ds.foldl Nat.max d :=
    le_foldl_max ds d d (List.mem_cons_self d ds)
  simp only [inactiveDays]
  omega

/-- Claim C1 (code bug at a failing input): a message with no media at
all is in range and is neither a photo nor a video, yet the metric-4
query returns no date for it — SQL `media_type NOT IN ('photo','video')`
is NULL, not TRUE, on a NULL `media_type` — so the most-active-day result
of a store holding only that message is the empty sentinel `(None, 0)`
instead of counting the message toward 2023-01-01. -/
theorem metric4_drops_plain_text_message :
    exTextRow.media_type = none ∧
    dateFilter none none exTextRow = true ∧
    metric4Dates [exTextRow] none none = [] ∧
    activeDay [exTextRow] none none = (none, 0) := by
  refine ⟨rfl, rfl, by decide, by decide⟩

/-- Claim C3 (code bug at a failing input): on the stream
`[msg₁, FloodWait 5, msg₂]` the fetch loop stores `msg₁`, then the
`FloodWait` handler — which sits outside the `async for` loop — sleeps
and returns, so `msg₂` is never consumed and never written, although the
rate-limit signal is indeed not surfaced as a run failure. -/
theorem floodwait_abandons_stream :
    fetchLoop [] none none exStream =
      ([saveRowOf exMsg1], FetchOutcome.floodWaited 5) ∧
    saveRowOf exMsg2 ∉ (fetchLoop [] none none exStream).1 ∧
    (fetchLoop [] none none exStream).2 ≠ FetchOutcome.failed := by
  refine ⟨by decide, by decide, by decide⟩

/-- Membership in the dedup helper: kept iff present and not yet seen. -/
theorem mem_firstDedupAux [DecidableEq α] (a : α) :
    ∀ (l seen : List α), a ∈ firstDedupAux seen l ↔ a ∈ l ∧ a ∉ seen
  | [], seen => by simp [firstDedupAux]
  | x :: xs, seen => by
    by_cases hx : x ∈ seen
    · rw [show firstDedupAux seen (x :: xs) = firstDedupAux seen xs by
        simp [firstDedupAux, hx]]
      rw [mem_firstDedupAux a xs seen]
      constructor
      · rintro ⟨h1, h2⟩
        exact ⟨List.mem_cons_of_mem _ h1, h2⟩
      · rintro ⟨h1, h2⟩
        rcases List.mem_cons.mp h1 with rfl | h1'
        · exact absurd hx h2
        · exact ⟨h1', h2⟩
    · rw [show firstDedupAux seen (x :: xs) = x :: firstDedupAux (x :: seen) xs by
        simp [firstDedupAux, hx]]
      constructor
      · intro h
        rcases List.mem_cons.mp h with rfl | h'
        · exact ⟨List.mem_cons_self _ _, hx⟩
        · rw [mem_firstDedupAux a xs (x :: seen)] at h'
          exact ⟨List.mem_cons_of_mem _ h'.1,
            fun hs => h'.2 (List.mem_cons_of_mem _ hs)⟩
      · rintro ⟨h1, h2⟩
        by_cases hax : a = x
        · subst hax
          exact List.mem_cons_self _ _
        · rcases List.mem_cons.mp h1 with rfl | h1'
          · exact absurd rfl hax
          · refine List.mem_cons_of_mem _ ?_
            rw [mem_firstDedupAux a xs (x :: seen)]
            exact ⟨h1', fun hs => (List.mem_cons.mp hs).elim hax h2⟩

/-- First-encounter dedup preserves membership. -/
theorem mem_firstDedup [DecidableEq α] (a : α) (l : List α) :
    a ∈ firstDedup l ↔ a ∈ l := by
  rw [firstDedup, mem_firstDedupAux]
  simp

/-- A non-empty scan has a non-empty dedup. -/
theorem firstDedup_ne_nil [DecidableEq α] {l : List α} (h : l ≠ []) :
    firstDedup l ≠ [] := by
  cases l with
  | nil => exact absurd rfl h
  | cons x xs => simp [firstDedup, firstDedupAux]

/-- A non-empty scan has a non-empty counter. -/
theorem counterList_ne_nil [DecidableEq α] {l : List α} (h : l ≠ []) :
    counterList l ≠ [] := by
  unfold counterList
  simp only [ne_eq, List.map_eq_nil_iff]
  exact firstDedup_ne_nil h

/-- `most_common(1)` of a non-empty scan is non-empty. -/
theorem pyMostCommon_one_ne_nil [DecidableEq α] {l : List α} (h : l ≠ []) :
    pyMostCommon l 1 ≠ [] := by
  unfold pyMostCommon sortByCountDesc
  have hlen := (List.perm_insertionSort cntGe (counterList l)).length_eq
  cases hs : List.insertionSort cntGe (counterList l) with
  | nil =>
    rw [hs] at hlen
    exact absurd (List.eq_nil_of_length_eq_zero hlen.symm) (counterList_ne_nil h)
  | cons p ps => simp [hs]

/-- A month key with tokens receives an entry in the dict built over any
key list containing it. -/
theorem monthlyTopWordsAux_mem (db : List Row) (s e : Option Timestamp) :
    ∀ (keys : List (Nat × Nat)) (ym : Nat × Nat), ym ∈ keys →
      monthWords db s e ym ≠ [] →
      ∃ w, (ym, w) ∈ monthlyTopWordsAux db s e keys
  | k :: rest, ym, hmem, hw => by
    rcases List.mem_cons.mp hmem with rfl | hrest
    · cases hmc : pyMostCommon (monthWords db s e ym) 1 with
      | nil => exact absurd hmc (pyMostCommon_one_ne_nil hw)
      | cons p ps =>
        obtain ⟨w, c⟩ := p
        refine ⟨w, ?_⟩
        show (ym, w) ∈ (match pyMostCommon (monthWords db s e ym) 1 with
          | (w, _) :: _ => [(ym, w)]
          | [] => []) ++ monthlyTopWordsAux db s e rest
        rw [hmc]
        exact List.mem_append_left _ (List.mem_singleton.mpr rfl)
    · obtain ⟨w, hwmem⟩ := monthlyTopWordsAux_mem db s e rest ym hrest hw
      exact ⟨w, List.mem_append_right _ hwmem⟩

/-- Claim C7 counterexample: a store holding one in-range January-2023
message with no text produces the month bucket `2023-01` but no
monthly-top-words entry at all, refuting the claim that every month with
at least one in-range message has an entry. -/
theorem month_without_tokens_has_no_top_word :
    monthKeys [exNoTextRow] none none = [(2023, 1)] ∧
    monthlyTopWords [exNoTextRow] none none = [] ∧
    ∀ w, ((2023, 1), w) ∉ monthlyTopWords [exNoTextRow] none none := by
  refine ⟨by decide, by decide, ?_⟩
  intro w hw
  rw [show monthlyTopWords [exNoTextRow] none none = [] from by decide] at hw
  exact List.not_mem_nil _ hw

/-- Claim C7 (amended): for every month bucket containing at least one
in-range message whose texts yield at least one token, the
monthly-top-words result contains an entry for that month; and a month is
a bucket exactly when some in-range dated row falls in it. -/
theorem monthly_top_word_exists_of_tokens :
    (∀ (db : List Row) (s e : Option Timestamp) (ym : Nat × Nat),
       ym ∈ monthKeys db s e → monthWords db s e ym ≠ [] →
       ∃ w, (ym, w) ∈ monthlyTopWords db s e)
    ∧ (∀ (db : List Row) (s e : Option Timestamp) (ym : Nat × Nat),
       ym ∈ monthKeys db s e ↔
         ∃ r ∈ db, r.date.isSome = true ∧ dateFilter s e r = true ∧
           r.date.map monthOf = some ym) := by
  constructor
  · intro db s e ym hmem hw
    exact monthlyTopWordsAux_mem db s e (monthKeys db s e) ym hmem hw
  · intro db s e ym
    rw [monthKeys, mem_firstDedup, List.mem_filterMap]
    simp only [metric12Rows, List.mem_filter, Bool.and_eq_true]
    constructor
    · rintro ⟨r, ⟨hdb, hsome, hfil⟩, hmap⟩
      exact ⟨r, hdb, hsome, hfil, hmap⟩
    · rintro ⟨r, hdb, hsome, hfil, hmap⟩
      exact ⟨r, ⟨hdb, hsome, hfil⟩, hmap⟩

/-- Witness for the amended C7 at a concrete store. -/
theorem monthly_top_word_exists_of_tokens_witness :
    ∃ w, ((2023, 1), w) ∈ monthlyTopWords [exWordyRow] none none :=
  monthly_top_word_exists_of_tokens.1 [exWordyRow] none none (2023, 1)
    (by decide) (by decide)

/-- Inserting an item leaves the subsequence of any other count class
untouched and puts the item in front of its own count class (every
element passed over has a strictly larger count). -/
theorem filter_orderedInsert (x : α × Nat) (c : Nat) :
    ∀ l : List (α × Nat),
      (List.orderedInsert cntGe x l).filter (fun p => p.2 == c) =
        if x.2 = c then x :: l.filter (fun p => p.2 == c)
        else l.filter (fun p => p.2 == c)
  | [] => by
    by_cases h : x.2 = c <;> simp [List.orderedInsert, List.filter_cons, h]
  | y :: ys => by
    by_cases hxy : cntGe x y
    · rw [List.orderedInsert_of_le cntGe _ hxy]
      by_cases h : x.2 = c <;> simp [List.filter_cons, h]
    · rw [show List.orderedInsert cntGe x (y :: ys) =
          y :: List.orderedInsert cntGe x ys by
        simp [List.orderedInsert, hxy]]
      rw [List.filter_cons, List.filter_cons]
      by_cases h : x.2 = c
      · have hyc : ¬ (y.2 = c) := by
          have hlt : ¬ (y.2 ≤ x.2) := hxy
          omega
        simp only [show (y.2 == c) = false by simp [hyc]]
        rw [filter_orderedInsert x c ys, if_pos h, if_pos h]
        simp
      · rw [filter_orderedInsert x c ys, if_neg h]
        by_cases hy : y.2 = c <;> simp [hy, h]

/-- Stability of the count sort: each count class of the output is the
count class of the input, in the same order. -/
theorem filter_sortByCountDesc (c : Nat) :
    ∀ l : List (α × Nat),
      (sortByCountDesc l).filter (fun p => p.2 == c) =
        l.filter (fun p => p.2 == c)
  | [] => rfl
  | x :: xs => by
    have ih := filter_sortByCountDesc c xs
    rw [sortByCountDesc] at ih
    show (List.orderedInsert cntGe x
      (List.insertionSort cntGe xs)).filter (fun p => p.2 == c) = _
    rw [filter_orderedInsert x c, ih]
    by_cases h : x.2 = c
    · rw [if_pos h]
      simp [List.filter_cons, h]
    · rw [if_neg h]
      simp [List.filter_cons, h]

/-- Every counter item carries the total multiplicity of its key. -/
theorem counterList_snd [DecidableEq α] {l : List α} {p : α × Nat}
    (hp : p ∈ counterList l) : p.2 = l.count p.1 := by
  unfold counterList at hp
  obtain ⟨a, _, rfl⟩ := List.mem_map.mp hp
  rfl

/-- Claim C5: top-k selection is deterministic — a key whose count
strictly exceeds every other key's count heads `most_common(k)` for any
`k ≥ 1`, and the equal-count classes of the sorted output keep their
first-encounter scan order (the counter lists keys in scan order, and
sorting preserves each count class as a subsequence). -/
theorem topk_deterministic :
    (∀ {α : Type} [DecidableEq α] (l : List α) (k : Nat) (x : α) (c : Nat),
       1 ≤ k → (x, c) ∈ counterList l →
       (∀ y d, (y, d) ∈ counterList l → y ≠ x → d < c) →
       (pyMostCommon l k).head? = some (x, c))
    ∧ (∀ {α : Type} [DecidableEq α] (l : List α) (c : Nat),
       (sortByCountDesc (counterList l)).filter (fun p => p.2 == c) =
         (counterList l).filter (fun p => p.2 == c)) := by
  constructor
  · intro α _ l k x c hk hmem huniq
    have hperm := List.perm_insertionSort cntGe (counterList l)
    have hsorted := List.sorted_insertionSort cntGe (counterList l)
    unfold pyMostCommon sortByCountDesc
    cases hs : List.insertionSort cntGe (counterList l) with
    | nil =>
      rw [hs] at hperm
      exact absurd (hperm.symm.subset hmem) (List.not_mem_nil _)
    | cons h t =>
      rw [hs] at hperm hsorted
      have hhl : h ∈ counterList l := hperm.subset (List.mem_cons_self h t)
      have hrel : ∀ b ∈ t, cntGe h b := (List.sorted_cons.mp hsorted).1
      have hh : h = (x, c) := by
        rcases List.mem_cons.mp (hperm.mem_iff.mpr hmem) with heq | hts
        · exact heq.symm
        · obtain ⟨y, d⟩ := h
          have hc_le : c ≤ d := hrel (x, c) hts
          by_cases hyx : y = x
          · subst hyx
            have h1 : d = l.count y := counterList_snd hhl
            have h2 : c = l.count y := by simpa using counterList_snd hmem
            rw [h1, h2]
          · exact absurd (huniq y d hhl hyx) (Nat.not_lt.mpr hc_le)
      rw [hh]
      cases k with
      | zero => omega
      | succ k' => simp
  · intro α _ l c
    exact filter_sortByCountDesc c (counterList l)

/-- Witness for C5: on the scan `[a, b, a]` the unique maximum `(a, 2)`
heads `most_common(1)`. -/
theorem topk_deterministic_witness :
    (pyMostCommon ["a", "b", "a"] 1).head? = some ("a", 2) := by
  refine topk_deterministic.1 ["a", "b", "a"] 1 "a" 2 (by decide) (by decide) ?_
  intro y d hmem hne
  rw [show counterList ["a", "b", "a"] = [("a", 2), ("b", 1)] by decide] at hmem
  simp only [List.mem_cons, List.not_mem_nil, or_false, Prod.mk.injEq] at hmem
  rcases hmem with ⟨rfl, rfl⟩ | ⟨rfl, rfl⟩
  · exact absurd rfl hne
  · decide

/-- Digit characters grow with their digit value. -/
theorem decDigit_toNat (d : Nat) (h : d < 10) : (decDigit d).toNat = 48 + d := by
  interval_cases d <;> rfl

/-- Comparing mixed-radix encodings digit by digit. -/
theorem mixed_radix_lt {P q1 q2 s1 s2 : Nat} (hq : q1 < q2) (hs1 : s1 < P) :
    P * q1 + s1 < P * q2 + s2 := by
  calc P * q1 + s1 < P * q1 + P := by omega
    _ = P * (q1 + 1) := by ring
    _ ≤ P * q2 := Nat.mul_le_mul_left P hq
    _ ≤ P * q2 + s2 := Nat.le_add_right _ _

/-- Zero-padded equal-width decimal fields compare lexicographically as
numbers, and equal fields defer to the remainder of the strings. -/
theorem padLexLt :
    ∀ (w n m : Nat) (r1 r2 : List Char), n < 10 ^ w → m < 10 ^ w →
      (lexLt (padDigits w n ++ r1) (padDigits w m ++ r2) = true ↔
        n < m ∨ (n = m ∧ lexLt r1 r2 = true))
  | 0, n, m, r1, r2, hn, hm => by
    rw [pow_zero] at hn hm
    have hn0 : n = 0 := by omega
    have hm0 : m = 0 := by omega
    subst hn0; subst hm0
    simp [padDigits]
  | w + 1, n, m, r1, r2, hn, hm => by
    have h10 : (0:Nat) < 10 ^ w := pow_pos (by norm_num) w
    have hnq : n < 10 * 10 ^ w := by rw [pow_succ] at hn; omega
    have hmq : m < 10 * 10 ^ w := by rw [pow_succ] at hm; omega
    have hd1 : n / 10 ^ w < 10 := (Nat.div_lt_iff_lt_mul h10).mpr (by omega)
    have hd2 : m / 10 ^ w < 10 := (Nat.div_lt_iff_lt_mul h10).mpr (by omega)
    have en : 10 ^ w * (n / 10 ^ w) + n % 10 ^ w = n := Nat.div_add_mod n (10 ^ w)
    have em : 10 ^ w * (m / 10 ^ w) + m % 10 ^ w = m := Nat.div_add_mod m (10 ^ w)
    have hs1 : n % 10 ^ w < 10 ^ w := Nat.mod_lt _ h10
    have hs2 : m % 10 ^ w < 10 ^ w := Nat.mod_lt _ h10
    simp only [padDigits, List.cons_append, lexLt, List.append_eq]
    rw [decDigit_toNat _ hd1, decDigit_toNat _ hd2]
    rcases Nat.lt_trichotomy (n / 10 ^ w) (m / 10 ^ w) with hlt | heq | hgt
    · rw [if_pos (by omega)]
      have hnm : n < m := by
        rw [← en, ← em]
        exact mixed_radix_lt hlt hs1
      simp [hnm]
    · rw [if_neg (by omega), if_neg (by omega)]
      rw [padLexLt w (n % 10 ^ w) (m % 10 ^ w) r1 r2 hs1 hs2]
      rw [heq] at en
      have hiff1 : n < m ↔ n % 10 ^ w < m % 10 ^ w := by omega
      have hiff2 : n = m ↔ n % 10 ^ w = m % 10 ^ w := by omega
      rw [hiff1, hiff2]
    · rw [if_neg (by omega), if_pos (by omega)]
      have hmn : m < n := by
        rw [← en, ← em]
        exact mixed_radix_lt hgt hs2
      constructor
      · intro hc
        exact absurd hc (by simp)
      · rintro (hc | ⟨hc, _⟩) <;> omega

/-- The optional fractional-second part compares chronologically: an
omitted part (microsecond 0) sorts before any present one because
`+` (0x2B) precedes `.` (0x2E). -/
theorem usecTailLt (ua ub : Nat) (ha : ua ≤ 999999) (hb : ub ≤ 999999) :
    (lexLt (usecChars ua ++ offsetChars) (usecChars ub ++ offsetChars) = true ↔
      ua < ub) := by
  have hp6 : (10:Nat) ^ 6 = 1000000 := by norm_num
  by_cases h0a : ua = 0 <;> by_cases h0b : ub = 0
  · subst h0a; subst h0b
    simp [usecChars, lexLt_irrefl]
  · subst h0a
    rw [usecChars, if_pos rfl, usecChars, if_neg h0b]
    rw [List.nil_append, List.cons_append]
    rw [show offsetChars = '+' :: ['0', '0', ':', '0', '0'] from rfl]
    rw [show lexLt ('+' :: ['0', '0', ':', '0', '0'])
        ('.' :: (padDigits 6 ub ++ ['+', '0', '0', ':', '0', '0'])) =
        true from by simp [lexLt]]
    simp [Nat.pos_of_ne_zero h0b]
  · subst h0b
    rw [usecChars, if_neg h0a, usecChars, if_pos rfl]
    rw [List.nil_append, List.cons_append]
    rw [show offsetChars = '+' :: ['0', '0', ':', '0', '0'] from rfl]
    rw [show lexLt ('.' :: (padDigits 6 ua ++ ['+', '0', '0', ':', '0', '0']))
        ('+' :: ['0', '0', ':', '0', '0']) = false from by simp [lexLt]]
    simp
  · rw [usecChars, if_neg h0a, usecChars, if_neg h0b]
    rw [List.cons_append, List.cons_append, lexLt_cons_same]
    rw [padLexLt 6 ua ub offsetChars offsetChars (by omega) (by omega)]
    rw [lexLt_irrefl]
    simp

/-- Every month has at most 31 days. -/
theorem daysInMonth_le_31 (y m : Nat) : daysInMonth y m ≤ 31 := by
  rw [daysInMonth]
  split
  · split <;> omega
  · split <;> omega

/-- A calendar-valid instant fits the serialized field widths. -/
theorem ValidTs.digitOk {t : Timestamp} (h : ValidTs t) : DigitOk t := by
  obtain ⟨h1, h2, h3, h4, h5, h6, h7, h8, h9, h10⟩ := h
  have h31 := daysInMonth_le_31 t.year t.month
  exact ⟨by omega, by omega, by omega, by omega, by omega, by omega, by omega⟩

/-- Lexicographic comparison of serialized instants agrees with the
mixed-radix chronological code, for instants fitting the field widths. -/
theorem lexLt_isoChars {a b : Timestamp} (ha : DigitOk a) (hb : DigitOk b) :
    (lexLt (isoChars a) (isoChars b) = true ↔ tsCode a < tsCode b) := by
  obtain ⟨hy1, hmo1, hd1, hh1, hmi1, hs1, hu1⟩ := ha
  obtain ⟨hy2, hmo2, hd2, hh2, hmi2, hs2, hu2⟩ := hb
  have p2 : (10:Nat) ^ 2 = 100 := by norm_num
  have p4 : (10:Nat) ^ 4 = 10000 := by norm_num
  rw [isoChars, isoChars]
  rw [padLexLt 4 _ _ _ _ (by omega) (by omega)]
  rw [lexLt_cons_same]
  rw [padLexLt 2 _ _ _ _ (by omega) (by omega)]
  rw [lexLt_cons_same]
  rw [padLexLt 2 _ _ _ _ (by omega) (by omega)]
  rw [lexLt_cons_same]
  rw [padLexLt 2 _ _ _ _ (by omega) (by omega)]
  rw [lexLt_cons_same]
  rw [padLexLt 2 _ _ _ _ (by omega) (by omega)]
  rw [lexLt_cons_same]
  rw [padLexLt 2 _ _ _ _ (by omega) (by omega)]
  rw [usecTailLt _ _ hu1 hu2]
  rw [tsCode, tsCode]
  omega

/-- Claim C10: stored timestamps are serialized by the single uniform
function `isoStr` (UTC calendar fields, fixed `+00:00` offset, the
fractional part a function of the instant), so lexicographic comparison
of any two stored date strings — the comparison every SQL date predicate
performs — agrees with chronological comparison of the instants. -/
theorem stored_date_strings_order_chronologically (a b : Timestamp)
    (ha : ValidTs a) (hb : ValidTs b) :
    (lexLt (isoStr a).data (isoStr b).data = true ↔ tsLt a b = true) ∧
    (a = b → isoStr a = isoStr b) := by
  constructor
  · rw [show (isoStr a).data = isoChars a from rfl,
      show (isoStr b).data = isoChars b from rfl, tsLt]
    rw [lexLt_isoChars ha.digitOk hb.digitOk]
    simp
  · intro h
    rw [h]

/-- Witness for C10 at two concrete instants (one with and one without a
fractional second part). -/
theorem stored_date_strings_order_chronologically_witness :
    ValidTs ⟨2023, 6, 15, 12, 0, 0, 0⟩ ∧
    (lexLt (isoStr ⟨2023, 6, 15, 12, 0, 0, 0⟩).data
        (isoStr ⟨2023, 6, 15, 12, 0, 0, 500000⟩).data = true ↔
      tsLt ⟨2023, 6, 15, 12, 0, 0, 0⟩ ⟨2023, 6, 15, 12, 0, 0, 500000⟩ = true) :=
  ⟨by decide,
    (stored_date_strings_order_chronologically ⟨2023, 6, 15, 12, 0, 0, 0⟩
      ⟨2023, 6, 15, 12, 0, 0, 500000⟩ (by decide) (by decide)).1⟩

/-- The successor day of a calendar-valid instant fits the serialized
field widths, provided its year does not overflow `datetime.MAXYEAR`. -/
theorem addOneDay_digitOk {e : Timestamp} (he : ValidTs e)
    (hy : (addOneDay e).year ≤ 9999) : DigitOk (addOneDay e) := by
  obtain ⟨h1, h2, h3, h4, h5, h6, h7, h8, h9, h10⟩ := he
  have h31 := daysInMonth_le_31 e.year e.month
  rw [addOneDay]
  split
  · unfold DigitOk
    refine ⟨?_, ?_, ?_, ?_, ?_, ?_, ?_⟩ <;> dsimp only <;> omega
  · split
    · unfold DigitOk
      refine ⟨?_, ?_, ?_, ?_, ?_, ?_, ?_⟩ <;> dsimp only <;> omega
    · rename_i hd hm
      have hy1 : (addOneDay e).year = e.year + 1 := by
        rw [addOneDay, if_neg hd, if_neg hm]
      unfold DigitOk
      refine ⟨?_, ?_, ?_, ?_, ?_, ?_, ?_⟩ <;> dsimp only <;> omega

/-- Claim C2 (code bug at a failing input): the Store query filter is
end-inclusive at day granularity — every valid instant within the end
day satisfies `date < (end + 1 day).isoformat()` and the instant
`(end+1 day) 00:00:00` itself does not, and an instant at the start
date's midnight satisfies `date >= start.isoformat()` — but the
per-message scan test of `fetch_messages` compares with `>` against the
end date's midnight, so for end date 15.06.2023 it rejects the message
at 2023-06-15 12:00:00 UTC that the claim (and the query filter)
accept. -/
theorem end_day_inclusivity_divergence :
    (∀ e t : Timestamp, ValidTs e → ValidTs t → (addOneDay e).year ≤ 9999 →
       t.year = e.year → t.month = e.month → t.day = e.day →
       sqlLtBound (some t) (isoStr (addOneDay e)) = true)
    ∧ (∀ e : Timestamp,
       sqlLtBound (some (addOneDay e)) (isoStr (addOneDay e)) = false)
    ∧ sqlGeBound (some ⟨2023, 6, 15, 0, 0, 0, 0⟩)
        (isoStr ⟨2023, 6, 15, 0, 0, 0, 0⟩) = true
    ∧ sqlLtBound (some ⟨2023, 6, 15, 12, 0, 0, 0⟩)
        (isoStr (addOneDay ⟨2023, 6, 15, 0, 0, 0, 0⟩)) = true
    ∧ scanAccept none (some ⟨2023, 6, 15, 0, 0, 0, 0⟩)
        ⟨2023, 6, 15, 12, 0, 0, 0⟩ = false := by
  refine ⟨?_, ?_, by decide, by decide, by decide⟩
  · intro e t he ht hy hty htm htd
    rw [sqlLtBound, show (isoStr (addOneDay e)).data = isoChars (addOneDay e)
      from rfl]
    rw [lexLt_isoChars ht.digitOk (addOneDay_digitOk he hy)]
    obtain ⟨e1, e2, e3, e4, e5, e6, e7, e8, e9, e10⟩ := he
    obtain ⟨t1, t2, t3, t4, t5, t6, t7, t8, t9, t10⟩ := ht
    have h31 := daysInMonth_le_31 e.year e.month
    rw [addOneDay]
    split
    · rw [tsCode, tsCode]
      dsimp only
      omega
    · split
      · rw [tsCode, tsCode]
        dsimp only
        omega
      · rw [tsCode, tsCode]
        dsimp only
        omega
  · intro e
    simp [sqlLtBound, isoStr, lexLt_irrefl]

/-- Witness for C2: the noon message of the end day passes the Store
query filter. -/
theorem end_day_inclusivity_divergence_witness :
    sqlLtBound (some ⟨2023, 6, 15, 12, 0, 0, 0⟩)
      (isoStr (addOneDay ⟨2023, 6, 15, 0, 0, 0, 0⟩)) = true :=
  end_day_inclusivity_divergence.1 ⟨2023, 6, 15, 0, 0, 0, 0⟩
    ⟨2023, 6, 15, 12, 0, 0, 0⟩ (by decide) (by decide) (by decide) rfl rfl rfl

/-- Every character of every run is a word character (the run in
progress consists of word characters throughout the scan). -/
theorem wordRunsAux_chars :
    ∀ (l cur : List Char), (∀ c ∈ cur, isWordChar c = true) →
      ∀ r ∈ wordRunsAux cur l, ∀ c ∈ r, isWordChar c = true
  | [], cur, hcur, r, hr => by
    rw [wordRunsAux] at hr
    split at hr
    · exact absurd hr (List.not_mem_nil r)
    · rw [List.mem_singleton] at hr
      subst hr
      intro c hc
      exact hcur c (List.mem_reverse.mp hc)
  | ch :: cs, cur, hcur, r, hr => by
    rw [wordRunsAux] at hr
    by_cases hw : isWordChar ch = true
    · rw [if_pos hw] at hr
      refine wordRunsAux_chars cs (ch :: cur) ?_ r hr
      intro c hc
      rcases List.mem_cons.mp hc with rfl | hc'
      · exact hw
      · exact hcur c hc'
    · rw [if_neg hw] at hr
      split at hr
      · exact wordRunsAux_chars cs [] (fun c hc => absurd hc (List.not_mem_nil c))
          r hr
      · rcases List.mem_cons.mp hr with rfl | hr'
        · intro c hc
          exact hcur c (List.mem_reverse.mp hc)
        · exact wordRunsAux_chars cs []
            (fun c hc => absurd hc (List.not_mem_nil c)) r hr'

/-- Claim C9: every token the tokenizer produces is a run of at least two
word characters and is outside the stop-word set, and tokenizing
"Hello, hello WORLD!" yields the counts {hello: 2, world: 1}. -/
theorem tokenizer_contract :
    (∀ (s t : String), t ∈ tokenize s →
       2 ≤ t.length ∧ (∀ c ∈ t.data, isWordChar c = true) ∧ t ∉ stopWords)
    ∧ counterList (tokenize "Hello, hello WORLD!") =
        [("hello", 2), ("world", 1)] := by
  constructor
  · intro s t ht
    unfold tokenize at ht
    rw [List.mem_filter] at ht
    obtain ⟨hmap, hstop⟩ := ht
    rw [List.mem_map] at hmap
    obtain ⟨r, hr, rfl⟩ := hmap
    rw [List.mem_filter] at hr
    obtain ⟨hrr, hlen⟩ := hr
    refine ⟨of_decide_eq_true hlen, ?_, of_decide_eq_true hstop⟩
    intro c hc
    exact wordRunsAux_chars (s.data.map pyLower) []
      (fun c h => absurd h (List.not_mem_nil c)) r hrr c hc
  · decide

/-- Witness for C9 at the documented example: "hello" is a produced
token. -/
theorem tokenizer_contract_witness :
    2 ≤ ("hello" : String).length ∧
      (∀ c ∈ ("hello" : String).data, isWordChar c = true) ∧
      ("hello" : String) ∉ stopWords :=
  tokenizer_contract.1 "Hello, hello WORLD!" "hello" (by decide)

end ChatAnalyzer
